import Mathlib

/-!
Verification of the boot-time analysis core in
`src/extras/boottime_tools/bootanalyze/bootanalyze.py`.

Python `OrderedDict` tables are embedded as association lists
(`List (String × v)`) with update-in-place-or-append assignment, first-match
lookup, and deletion; float arithmetic is embedded exactly over `ℚ`.
-/

set_option autoImplicit false

namespace BootAnalyze

/-! ## Ordered-dictionary primitives -/

/-- First-match lookup, `d.get(k)` on a Python dict. -/
def alGet {v : Type} (es : List (String × v)) (k : String) : Option v :=
  match es with
  | [] => none
  | (k0, v0) :: rest => if k0 = k then some v0 else alGet rest k

/-- `d[k] = x` on an ordered dict: replace the value in place when the key is
present, append the pair otherwise. -/
def alSet {v : Type} (es : List (String × v)) (k : String) (x : v) :
    List (String × v) :=
  match es with
  | [] => [(k, x)]
  | (k0, v0) :: rest =>
    if k0 = k then (k0, x) :: rest else (k0, v0) :: alSet rest k x

/-- `del d[k]`: remove every pair with key `k` (a dict holds it at most once). -/
def alDel {v : Type} (es : List (String × v)) (k : String) : List (String × v) :=
  match es with
  | [] => []
  | (k0, v0) :: rest => if k0 = k then alDel rest k else (k0, v0) :: alDel rest k

/-- Python truthiness of `d.get(k)` for a float-valued dict: present and
nonzero. -/
def truthy (o : Option ℚ) : Bool :=
  match o with
  | some x => x != 0
  | none => false

/-! ## ClockReconciler: anchor construction (`iterate`, the `diffs` list)

`diffs` is the ascending anchor list: pairs `(userClockTime, offset)`.
The construction appends the kernel-marker anchor when the `kernel` key was
captured (an `is None` test, so a zero timestamp still counts), then the
`BootAnimEnd` bridging anchor when truthy in both tables, and finally either
the `BootComplete`/`BootComplete_kernel` anchor or, failing that, the
`android_init_2st_stage` anchor; when neither of those two resolves the
iteration fails (`return None, ...`), embedded as `none`. -/

def kernelTimeKey : String := "kernel"
def bootAnimEndKey : String := "BootAnimEnd"
def kernelBootCompleteKey : String := "BootComplete_kernel"
def logcatBootCompleteKey : String := "BootComplete"
def androidInitSecondStageKey : String := "android_init_2st_stage"

/-- Anchor-list construction from the user (`logcat`) and kernel (`dmesg`)
event-time tables; `none` is the correlation failure (`iterate` returning the
all-`None` sentinel). -/
def buildDiffs (logcat dmesg : List (String × ℚ)) : Option (List (ℚ × ℚ)) :=
  let diffs : List (ℚ × ℚ) := []
  let diffs :=
    match alGet logcat kernelTimeKey with
    | none => diffs
    | some t => diffs ++ [(t, t)]
  let diffs :=
    if truthy (alGet logcat bootAnimEndKey) && truthy (alGet dmesg bootAnimEndKey) then
      let lt := (alGet logcat bootAnimEndKey).getD 0
      let dt := (alGet dmesg bootAnimEndKey).getD 0
      diffs ++ [(lt, lt - dt)]
    else diffs
  if truthy (alGet logcat logcatBootCompleteKey) &&
      truthy (alGet dmesg kernelBootCompleteKey) then
    let lt := (alGet logcat logcatBootCompleteKey).getD 0
    let dt := (alGet dmesg kernelBootCompleteKey).getD 0
    some (diffs ++ [(lt, lt - dt)])
  else if truthy (alGet logcat androidInitSecondStageKey) &&
      truthy (alGet dmesg androidInitSecondStageKey) then
    let lt := (alGet logcat androidInitSecondStageKey).getD 0
    let dt := (alGet dmesg androidInitSecondStageKey).getD 0
    some (diffs ++ [(lt, lt - dt)])
  else none

/-! ## ClockReconciler: per-event correction (`iterate`, correction loop) -/

/-- The inner `while diff[0] < events[k] and len(diffs) > 1: diffs.pop(0)`
loop: pop anchors from the front while the front anchor's time is strictly
below `t` and at least two anchors remain, tracking the last popped anchor as
`diff_prev`. Returns the remaining list and the tracked previous anchor. -/
def popAnchors : List (ℚ × ℚ) → (ℚ × ℚ) → ℚ → List (ℚ × ℚ) × (ℚ × ℚ)
  | d1 :: d2 :: rest, prev, t =>
    if d1.1 < t then popAnchors (d2 :: rest) d1 t else (d1 :: d2 :: rest, prev)
  | ds, prev, _ => (ds, prev)

/-- One step of the correction loop for an event at user-clock time `t`:
select the anchor, compute `t - offset`, and apply the negative-result
handling (`< -0.1` reverts with the previous anchor's offset, otherwise clamp
to `0`). Returns the corrected value together with the threaded
`(diffs, diff_prev)` state. -/
def correctOne (diffs : List (ℚ × ℚ)) (prev : ℚ × ℚ) (t : ℚ) :
    ℚ × List (ℚ × ℚ) × (ℚ × ℚ) :=
  let dp := popAnchors diffs prev t
  let d := dp.1.headD (0, 0)
  let raw := t - d.2
  let corrected :=
    if raw < 0 then
      if raw < -(1 / 10) then raw + d.2 - dp.2.2 else 0
    else raw
  (corrected, dp.1, dp.2)

/-- The anchor the correction actually lands on: the first anchor in the list
whose `userClockTime` is `≥ t`, and the last anchor when every anchor's time
is `< t`. -/
def anchorFirstGE (diffs : List (ℚ × ℚ)) (t : ℚ) : ℚ × ℚ :=
  match diffs.find? (fun d => t ≤ d.1) with
  | some d => d
  | none => diffs.getLastD (0, 0)

/-- The anchor-selection rule as the specification words it: the last anchor
in the ascending list whose `userClockTime` is `≤ t`, and the first anchor
when `t` precedes every anchor. Stated from the spec only, for comparison
with the code's selection. -/
def anchorLastLE (diffs : List (ℚ × ℚ)) (t : ℚ) : ℚ × ℚ :=
  match (diffs.filter (fun d => d.1 ≤ t)).getLast? with
  | some d => d
  | none => diffs.headD (0, 0)



/-- Branch of the negative-result handling taken for an event at time `t`
whose selected anchor has offset `off`: `0` when the raw correction is
non-negative, `1` when it is clamped to zero, `2` when it reverts to the
previous anchor's offset. -/
def corrBranch (off t : ℚ) : ℕ :=
  if t - off < 0 then (if t - off < -(1 / 10) then 2 else 1) else 0

theorem popAnchors_head (diffs : List (ℚ × ℚ)) (prev : ℚ × ℚ) (t : ℚ)
    (h : diffs ≠ []) :
    (popAnchors diffs prev t).1.headD (0, 0) = anchorFirstGE diffs t := by
  induction diffs generalizing prev with
  | nil => exact absurd rfl h
  | cons d1 rest ih =>
    cases rest with
    | nil =>
      simp [popAnchors, anchorFirstGE, List.find?]
      by_cases hle : t ≤ d1.1 <;> simp [hle]
    | cons d2 rest2 =>
      by_cases hlt : d1.1 < t
      · have h1 : popAnchors (d1 :: d2 :: rest2) prev t = popAnchors (d2 :: rest2) d1 t := by
          simp [popAnchors, hlt]
        have hnle : ¬ t ≤ d1.1 := not_le.mpr hlt
        rw [h1, ih d1 (by simp)]
        simp [anchorFirstGE, List.find?_cons, hnle, List.getLastD_eq_getLast?,
          List.getLast?_cons_cons]
      · have hle : t ≤ d1.1 := le_of_not_lt hlt
        have h1 : popAnchors (d1 :: d2 :: rest2) prev t = (d1 :: d2 :: rest2, prev) := by
          simp [popAnchors, hlt]
        rw [h1]
        simp [anchorFirstGE, List.find?_cons, hle]

/-- C1 (amended): for a user-only event at time `t`, the per-event correction
uses the first anchor in the anchor list whose `userClockTime` is `≥ t` (the
last anchor when every anchor's time is `< t`; equivalently the first anchor
when `t` precedes every anchor), and, before any negative-result handling,
computes `corrected = t - anchor.offset`. -/
theorem C1_per_event_anchor_selection (diffs : List (ℚ × ℚ)) (prev : ℚ × ℚ)
    (t : ℚ) (h : diffs ≠ []) :
    (popAnchors diffs prev t).1.headD (0, 0) = anchorFirstGE diffs t ∧
    (0 ≤ t - (anchorFirstGE diffs t).2 →
      (correctOne diffs prev t).1 = t - (anchorFirstGE diffs t).2) := by
  have hh := popAnchors_head diffs prev t h
  refine ⟨hh, fun hge => ?_⟩
  have e : (correctOne diffs prev t).1 =
      (if t - ((popAnchors diffs prev t).1.headD (0, 0)).2 < 0 then
        (if t - ((popAnchors diffs prev t).1.headD (0, 0)).2 < -(1 / 10) then
          t - ((popAnchors diffs prev t).1.headD (0, 0)).2 +
              ((popAnchors diffs prev t).1.headD (0, 0)).2 -
            (popAnchors diffs prev t).2.2
         else 0)
       else t - ((popAnchors diffs prev t).1.headD (0, 0)).2) := rfl
  rw [e, hh, if_neg (not_lt.mpr hge)]

/-- C1 witness: the theorem applied at anchors `[(10, 2), (50, 5)]`, `t = 30`. -/
theorem C1_per_event_anchor_selection_witness :
    (popAnchors [((10 : ℚ), 2), (50, 5)] (10, 2) 30).1.headD (0, 0) =
        anchorFirstGE [((10 : ℚ), 2), (50, 5)] 30 ∧
    (0 ≤ 30 - (anchorFirstGE [((10 : ℚ), 2), (50, 5)] 30).2 →
      (correctOne [((10 : ℚ), 2), (50, 5)] (10, 2) 30).1 =
        30 - (anchorFirstGE [((10 : ℚ), 2), (50, 5)] 30).2) :=
  C1_per_event_anchor_selection [((10 : ℚ), 2), (50, 5)] (10, 2) 30 (by simp)

/-- C1 counterexample: with anchors `[(10, 2), (50, 5)]` and `t = 30` (strictly
between the two anchor times), the code corrects with the *later* anchor's
offset `5`, giving `25`, not with the last anchor whose time is `≤ t` (offset
`2`, which would give `28`) as the claim states. -/
theorem C1_counterexample :
    (correctOne [((10 : ℚ), 2), (50, 5)] (10, 2) 30).1 = 25 ∧
    ¬ (correctOne [((10 : ℚ), 2), (50, 5)] (10, 2) 30).1 =
        30 - (anchorLastLE [((10 : ℚ), 2), (50, 5)] 30).2 := by
  have e1 : (correctOne [((10 : ℚ), 2), (50, 5)] (10, 2) 30).1 = 25 := by
    simp [correctOne, popAnchors]; norm_num
  have e2 : anchorLastLE [((10 : ℚ), 2), (50, 5)] 30 = (10, 2) := by decide
  refine ⟨e1, ?_⟩
  rw [e1, e2]
  norm_num

/-- C2 (amended): the anchor construction fails (returns the failure sentinel)
iff neither the boot-complete bridging pair (`BootComplete` in the user table,
`BootComplete_kernel` in the kernel table, both with nonzero timestamps) nor
the init-second-stage pair (`android_init_2st_stage` nonzero in both tables)
resolves; an `BootAnimEnd` pair contributes an extra anchor when present in
both tables but does not by itself prevent the correlation failure. -/
theorem C2_correlation_failure_iff (logcat dmesg : List (String × ℚ)) :
    buildDiffs logcat dmesg = none ↔
      ¬(((truthy (alGet logcat logcatBootCompleteKey) &&
            truthy (alGet dmesg kernelBootCompleteKey)) = true) ∨
        ((truthy (alGet logcat androidInitSecondStageKey) &&
            truthy (alGet dmesg androidInitSecondStageKey)) = true)) := by
  unfold buildDiffs
  by_cases h1 : (truthy (alGet logcat logcatBootCompleteKey) &&
      truthy (alGet dmesg kernelBootCompleteKey)) = true
  · simp [h1]
  · by_cases h2 : (truthy (alGet logcat androidInitSecondStageKey) &&
        truthy (alGet dmesg androidInitSecondStageKey)) = true
    · simp [h1, h2]
    · simp [h1, h2]

/-- C2 counterexample: `BootAnimEnd` — the first of the three bridging
candidates — is present (nonzero) in both tables, yet the construction still
fails because neither `BootComplete`/`BootComplete_kernel` nor
`android_init_2st_stage` resolves, contradicting the claim that any one of
the three candidates suffices for the iteration to proceed. -/
theorem C2_counterexample :
    truthy (alGet [("BootAnimEnd", (5 : ℚ))] bootAnimEndKey) = true ∧
    truthy (alGet [("BootAnimEnd", (3 : ℚ))] bootAnimEndKey) = true ∧
    buildDiffs [("BootAnimEnd", 5)] [("BootAnimEnd", 3)] = none := by
  refine ⟨by decide, by decide, by decide⟩

/-- C4 (amended): with a single in-force anchor of offset `10`, correcting
time `9` gives raw `-1`, whose overshoot exceeds the `0.1` tolerance, so it
reverts using the previous anchor's offset
(`corrected = raw + thisOffset - previousOffset`, which with a single anchor
leaves `-1`); correcting time `5` gives raw `-5`, which likewise exceeds the
tolerance and reverts to `-5`. Neither is clamped to `0`. -/
theorem C4_single_anchor_negative_results :
    (correctOne [((20 : ℚ), 10)] (20, 10) 9).1 = -1 ∧
    ((9 : ℚ) - 10 < -(1 / 10)) ∧
    (correctOne [((20 : ℚ), 10)] (20, 10) 5).1 = -5 ∧
    ((5 : ℚ) - 10 < -(1 / 10)) := by
  refine ⟨?_, by norm_num, ?_, by norm_num⟩ <;>
    (simp [correctOne, popAnchors]; norm_num)

/-- C4 counterexample: correcting time `9` against a single anchor of offset
`10` does not clamp to `0` (the raw result `-1` is beyond the `0.1`
tolerance); the result is `-1`. -/
theorem C4_counterexample :
    ¬ (correctOne [((20 : ℚ), 10)] (20, 10) 9).1 = 0 := by
  have e : (correctOne [((20 : ℚ), 10)] (20, 10) 9).1 = -1 := by
    simp [correctOne, popAnchors]; norm_num
  rw [e]
  norm_num

/-- C6 (amended): for a fixed anchor list, corrected time is monotone
non-decreasing in input time within one anchor interval *provided both inputs
are handled by the same branch of the negative-result handling* (both raw
results non-negative, both clamped, or both reverted); across the
clamp/revert boundaries monotonicity can fail. -/
theorem C6_monotone_same_branch (diffs : List (ℚ × ℚ)) (prev : ℚ × ℚ)
    (t1 t2 : ℚ) (h12 : t1 ≤ t2)
    (hsame : popAnchors diffs prev t1 = popAnchors diffs prev t2)
    (hbr : corrBranch ((popAnchors diffs prev t1).1.headD (0, 0)).2 t1 =
        corrBranch ((popAnchors diffs prev t2).1.headD (0, 0)).2 t2) :
    (correctOne diffs prev t1).1 ≤ (correctOne diffs prev t2).1 := by
  have e1 : (correctOne diffs prev t1).1 =
      (if t1 - ((popAnchors diffs prev t1).1.headD (0, 0)).2 < 0 then
        (if t1 - ((popAnchors diffs prev t1).1.headD (0, 0)).2 < -(1 / 10) then
          t1 - ((popAnchors diffs prev t1).1.headD (0, 0)).2 +
              ((popAnchors diffs prev t1).1.headD (0, 0)).2 -
            (popAnchors diffs prev t1).2.2
         else 0)
       else t1 - ((popAnchors diffs prev t1).1.headD (0, 0)).2) := rfl
  have e2 : (correctOne diffs prev t2).1 =
      (if t2 - ((popAnchors diffs prev t2).1.headD (0, 0)).2 < 0 then
        (if t2 - ((popAnchors diffs prev t2).1.headD (0, 0)).2 < -(1 / 10) then
          t2 - ((popAnchors diffs prev t2).1.headD (0, 0)).2 +
              ((popAnchors diffs prev t2).1.headD (0, 0)).2 -
            (popAnchors diffs prev t2).2.2
         else 0)
       else t2 - ((popAnchors diffs prev t2).1.headD (0, 0)).2) := rfl
  rw [e1, e2, ← hsame]
  rw [← hsame] at hbr
  unfold corrBranch at hbr
  split_ifs at hbr ⊢ <;> linarith

/-- C6 witness: anchors `[(5, 5), (20, 10)]`, inputs `11 ≤ 12`, both in the
interval of the second anchor and both with non-negative raw results. -/
theorem C6_monotone_same_branch_witness :
    (correctOne [((5 : ℚ), 5), (20, 10)] (5, 5) 11).1 ≤
      (correctOne [((5 : ℚ), 5), (20, 10)] (5, 5) 12).1 :=
  C6_monotone_same_branch [((5 : ℚ), 5), (20, 10)] (5, 5) 11 12 (by norm_num)
    (by norm_num [popAnchors]) (by norm_num [popAnchors, corrBranch])

/-- C6 counterexample: anchors `[(5, 5), (20, 10)]` and inputs
`9.5 < 9.95`, both within the same anchor interval (both select the second
anchor): time `9.5` reverts to `4.5` while time `9.95` is clamped to `0`, so
the correction is not monotone non-decreasing on the interval. -/
theorem C6_counterexample :
    ((19 / 2 : ℚ) < 199 / 20) ∧
    popAnchors [((5 : ℚ), 5), (20, 10)] (5, 5) (19 / 2) =
      popAnchors [((5 : ℚ), 5), (20, 10)] (5, 5) (199 / 20) ∧
    ¬ (correctOne [((5 : ℚ), 5), (20, 10)] (5, 5) (19 / 2)).1 ≤
        (correctOne [((5 : ℚ), 5), (20, 10)] (5, 5) (199 / 20)).1 := by
  have ea : (correctOne [((5 : ℚ), 5), (20, 10)] (5, 5) (19 / 2)).1 = 9 / 2 := by
    simp [correctOne, popAnchors]; norm_num
  have eb : (correctOne [((5 : ℚ), 5), (20, 10)] (5, 5) (199 / 20)).1 = 0 := by
    simp [correctOne, popAnchors]; norm_num
  refine ⟨by norm_num, by norm_num [popAnchors], ?_⟩
  rw [ea, eb]
  norm_num

/-! ## Basic lookup lemmas for the ordered-dictionary operations -/

theorem alGet_alSet_self {v : Type} (es : List (String × v)) (k : String)
    (x : v) : alGet (alSet es k x) k = some x := by
  induction es with
  | nil => simp [alGet, alSet]
  | cons p rest ih =>
    by_cases h : p.1 = k
    · simp [alSet, alGet, h]
    · simp [alSet, alGet, h, ih]

theorem alGet_alSet_ne {v : Type} (es : List (String × v)) (k k' : String)
    (x : v) (h : k ≠ k') : alGet (alSet es k x) k' = alGet es k' := by
  induction es with
  | nil => simp [alGet, alSet, h]
  | cons p rest ih =>
    by_cases hp : p.1 = k
    · simp [alSet, alGet, hp, h]
    · simp only [alSet, hp, if_false]
      by_cases hp' : p.1 = k' <;> simp [alGet, hp', ih]

theorem alGet_alDel_self {v : Type} (es : List (String × v)) (k : String) :
    alGet (alDel es k) k = none := by
  induction es with
  | nil => rfl
  | cons p rest ih =>
    by_cases h : p.1 = k
    · simp [alDel, h, ih]
    · simp [alDel, h, alGet, ih]

theorem alGet_alDel_ne {v : Type} (es : List (String × v)) (k k' : String)
    (h : k ≠ k') : alGet (alDel es k) k' = alGet es k' := by
  induction es with
  | nil => rfl
  | cons p rest ih =>
    by_cases hp : p.1 = k
    · have hp' : ¬ p.1 = k' := by rw [hp]; exact h
      simp [alDel, hp, alGet, hp', ih, h]
    · by_cases hp' : p.1 = k' <;> simp [alDel, hp, alGet, hp', ih, Ne.symm h]

/-! ## ZygoteDisambiguator (`handle_zygote_event`)

A log line routed to the zygote handler carries the process id parsed from
its second word (`int(words[1])`); the parsed pid is embedded as a field,
`none` when the line has fewer than two words. -/

structure ZLine where
  pid? : Option Int
  raw : String
deriving DecidableEq

/-- Python `s.startswith(p)` (character-wise prefix test). -/
def strStartsWith (s p : String) : Bool := p.data.isPrefixOf s.data

/-- Python `s.endswith(p)` (character-wise suffix test). -/
def strEndsWith (s p : String) : Bool := p.data.isSuffixOf s.data

/-- One step of the retroactive migration loop over the collected
zygote-prefixed entries: `del events[item[0]]`, then re-insert under the
`-secondary`-suffixed name unless the name already ends with `-secondary`
(in which case only a warning is printed and nothing is re-inserted). -/
def migrateStep (es : List (String × ZLine)) (item : String × ZLine) :
    List (String × ZLine) :=
  let es := alDel es item.1
  if strEndsWith item.1 "-secondary" then es
  else alSet es (item.1 ++ "-secondary") item.2

/-- `handle_zygote_event(zygote_pids, events, event, line)`: classify the
event against the 0, 1 or 2 known zygote pids, possibly migrating existing
zygote-prefixed entries to their `-secondary` names, and record the line
under the (possibly suffixed) event name. Returns the updated pid list and
event table. -/
def handleZygoteEvent (pids : List Int) (events : List (String × ZLine))
    (event : String) (line : ZLine) : List Int × List (String × ZLine) :=
  match line.pid? with
  | none => (pids, alSet events event line)
  | some pid =>
    match pids with
    | [p0, p1] =>
      let event := if pid = p1 then event ++ "-secondary" else event
      ([p0, p1], alSet events event line)
    | [p0] =>
      if p0 ≠ pid then
        let primary := min pid p0
        let secondary := max pid p0
        let pids := [primary, secondary]
        if pid = primary then
          let move := events.filter (fun p => strStartsWith p.1 "zygote")
          let events := move.foldl migrateStep events
          (pids, alSet events event line)
        else
          (pids, alSet events (event ++ "-secondary") line)
      else ([p0], alSet events event line)
    | _ => (pids ++ [pid], alSet events event line)

/-- C5: the zygote disambiguation sequence. Starting with no known pids, a
zygote event with pid `100` is recorded under its unmodified name; the next
zygote event with pid `150` promotes `primary = 100`, `secondary = 150` and
is recorded with the `-secondary` suffix; a further zygote event with pid
`200` is classified solely against the recorded secondary pid `150` (`200 ≠
150`, so it is recorded unsuffixed), with no further identity promotion. -/
theorem C5_zygote_pid_sequence :
    (handleZygoteEvent [] [] "zygote64" ⟨some 100, "l1"⟩ =
      ([100], [("zygote64", ⟨some 100, "l1"⟩)])) ∧
    (handleZygoteEvent [100] [("zygote64", ⟨some 100, "l1"⟩)] "zygote64"
        ⟨some 150, "l2"⟩ =
      ([100, 150], [("zygote64", ⟨some 100, "l1"⟩),
        ("zygote64-secondary", ⟨some 150, "l2"⟩)])) ∧
    (handleZygoteEvent [100, 150]
        [("zygote64", ⟨some 100, "l1"⟩), ("zygote64-secondary", ⟨some 150, "l2"⟩)]
        "zygote64" ⟨some 200, "l3"⟩ =
      ([100, 150], [("zygote64", ⟨some 200, "l3"⟩),
        ("zygote64-secondary", ⟨some 150, "l2"⟩)])) := by
  refine ⟨by decide, by decide, by decide⟩

theorem migrate_fold_ne {k : String} {L : ZLine} :
    ∀ (post : List (String × ZLine)) (s : List (String × ZLine)),
      alGet s k ≠ some L → (∀ q ∈ post, q.2 ≠ L) →
      alGet (post.foldl migrateStep s) k ≠ some L := by
  intro post
  induction post with
  | nil => intro s hs _; simpa using hs
  | cons q rest ih =>
    intro s hs hq
    have hq1 : q.2 ≠ L := hq q (by simp)
    have hstep : alGet (migrateStep s q) k ≠ some L := by
      unfold migrateStep
      by_cases hsfx : strEndsWith q.1 "-secondary" = true
      · simp only [hsfx, if_true]
        by_cases hk : q.1 = k
        · rw [hk, alGet_alDel_self]; simp
        · rw [alGet_alDel_ne _ _ _ hk]; exact hs
      · simp only [hsfx, if_false, Bool.false_eq_true]
        by_cases hk2 : q.1 ++ "-secondary" = k
        · rw [hk2, alGet_alSet_self]
          simp [hq1]
        · rw [alGet_alSet_ne _ _ _ _ hk2]
          by_cases hk : q.1 = k
          · rw [hk, alGet_alDel_self]; simp
          · rw [alGet_alDel_ne _ _ _ hk]; exact hs
    have hrest : ∀ q' ∈ rest, q'.2 ≠ L := fun q' hq' => hq q' (by simp [hq'])
    simpa using ih (migrateStep s q) hstep hrest

/-- C9: when the second zygote pid `p` arrives (with `p < p0`, so the
previously-known pid `p0` turns out to be the secondary), the retroactive
migration deletes every collected zygote-prefixed key that already ends in
`-secondary` and never re-inserts its recorded line (only a warning is
printed): provided the line `L` of such a pre-existing entry differs from the
lines of the zygote entries collected after it (which could be migrated onto
its name) and the incoming event is recorded under a different name, `L` is
lost from the returned table. -/
theorem C9_preexisting_secondary_line_lost
    (p0 p : Int) (es : List (String × ZLine)) (event : String) (line : ZLine)
    (pre post : List (String × ZLine)) (k : String) (L : ZLine)
    (hpid : line.pid? = some p) (hlt : p < p0)
    (hk : strEndsWith k "-secondary" = true)
    (hsplit : es.filter (fun q => strStartsWith q.1 "zygote") =
      pre ++ (k, L) :: post)
    (hpost : ∀ q ∈ post, q.2 ≠ L)
    (hev : event ≠ k) :
    alGet (handleZygoteEvent [p0] es event line).2 k ≠ some L := by
  have hne : p0 ≠ p := ne_of_gt hlt
  have hmin : min p p0 = p := min_eq_left (le_of_lt hlt)
  simp only [handleZygoteEvent, hpid]
  rw [if_pos hne, if_pos hmin.symm]
  simp only []
  rw [alGet_alSet_ne _ event k line hev, hsplit, List.foldl_append,
    List.foldl_cons]
  have hdel : migrateStep (pre.foldl migrateStep es) (k, L) =
      alDel (pre.foldl migrateStep es) k := by
    unfold migrateStep
    simp [hk]
  rw [hdel]
  exact migrate_fold_ne post _ (by rw [alGet_alDel_self]; simp) hpost

/-- C9 witness: table `[zygote64 ↦ la, zygote64-secondary ↦ lb]`; pid `100`
arrives while `150` is the single known pid, so the old entries migrate; the
pre-existing `zygote64-secondary` line `lb` is gone from the result. -/
theorem C9_preexisting_secondary_line_lost_witness :
    alGet (handleZygoteEvent [150]
        [("zygote64", ⟨some 42, "la"⟩), ("zygote64-secondary", ⟨some 43, "lb"⟩)]
        "zygote64" ⟨some 100, "lc"⟩).2 "zygote64-secondary" ≠
      some ⟨some 43, "lb"⟩ :=
  C9_preexisting_secondary_line_lost 150 100
    [("zygote64", ⟨some 42, "la"⟩), ("zygote64-secondary", ⟨some 43, "lb"⟩)]
    "zygote64" ⟨some 100, "lc"⟩
    [("zygote64", ⟨some 42, "la"⟩)] [] "zygote64-secondary" ⟨some 43, "lb"⟩
    rfl (by decide) (by decide) (by decide) (by decide) (by decide)

/-! ## EventMatcher duration handling (`generate_timing_points`) -/

/-- A raw log line fed to `generate_timing_points`: the line's text together
with the `(name, time)` pair `extract_timing(v, timings)` yields for it under
the configured duration patterns (`none` when no pattern matches; the regex
search itself is abstracted as this per-line field). -/
structure RawLine where
  text : String
  ext : Option (String × ℚ)
deriving DecidableEq

def asyncMarker : String := "SystemServerTimingAsync"

/-- `chars.find(pat)` on character lists: index of the first occurrence of
`pat`, `-1` when absent. -/
def charFind : List Char → List Char → Int
  | [], pat => if pat.isEmpty then 0 else -1
  | c :: rest, pat =>
    if pat.isPrefixOf (c :: rest) then 0
    else
      let r := charFind rest pat
      if r = -1 then -1 else r + 1

/-- Python `s.find(pat)`: index of the first occurrence, `-1` when absent. -/
def strFind (s pat : String) : Int := charFind s.data pat.data

/-- `name + "#" + str(i)` disambiguation candidates: the bare name for
`i = 0`, then `name#1`, `name#2`, ... -/
def hashName (name : String) (i : Nat) : String :=
  if i = 0 then name else name ++ "#" ++ toString i

/-- The `while timing_points.get(new_name):` disambiguation loop: walk the
candidates until one is absent (or present with falsy value `0`). The fuel
`tp.length + 1` suffices since the candidates are distinct and `tp` has at
most `tp.length` truthy keys. -/
def dedupNameAux (tp : List (String × ℚ)) (name : String) :
    Nat → Nat → String
  | i, 0 => hashName name i
  | i, fuel + 1 =>
    if truthy (alGet tp (hashName name i)) then dedupNameAux tp name (i + 1) fuel
    else hashName name i

def dedupName (tp : List (String × ℚ)) (name : String) : String :=
  dedupNameAux tp name 0 (tp.length + 1)

/-- The body of `generate_timing_points` for one raw line `v` of the pattern
group named `k`, acting on the state `(timing_points,
monitor_contention_points)`: skip unless both the extracted name and time are
truthy, wrap the name in parentheses when the line's
`SystemServerTimingAsync` marker sits at a strictly positive index, scale
seconds groups (`*_secs` keys) to milliseconds, route
`long_monitor_contention*` groups to the side table keyed by the raw line,
and otherwise record under the collision-disambiguated name. -/
def processTimingLine (k : String)
    (st : List (String × ℚ) × List (String × ℚ)) (v : RawLine) :
    List (String × ℚ) × List (String × ℚ) :=
  match v.ext with
  | none => st
  | some (name, timeV) =>
    if name = "" ∨ timeV = 0 then st
    else
      let name := if strFind v.text asyncMarker > 0 then "(" ++ name ++ ")" else name
      let timeV := if strEndsWith k "_secs" then timeV * 1000 else timeV
      if strStartsWith k "long_monitor_contention" then
        (st.1, alSet st.2 v.text timeV)
      else
        (alSet st.1 (dedupName st.1 name) timeV, st.2)

/-- `generate_timing_points(timing_events, timings)`: fold the per-line body
over every line of every pattern group, from empty tables. -/
def generateTimingPoints (timingEvents : List (String × List RawLine)) :
    List (String × ℚ) × List (String × ℚ) :=
  timingEvents.foldl (fun st kl => kl.2.foldl (processTimingLine kl.1) st)
    ([], [])

/-- C8 (amended): for every raw line matched by a duration pattern (truthy
extracted name and value): (a) the recorded name is wrapped in parentheses
iff the `SystemServerTimingAsync` marker occurs at a strictly positive index
in the line — a line beginning with the marker is not wrapped; (b) if the
pattern-group key ends in `_secs` the captured value is scaled by 1000 to
milliseconds; (c) if the pattern-group key begins with
`long_monitor_contention` the value is placed in the side table keyed by the
raw line (not by the extracted name) and nothing is added to the main
duration table. -/
theorem C8_duration_line_transforms (k : String)
    (tp mc : List (String × ℚ)) (v : RawLine) (n : String) (t : ℚ)
    (hext : v.ext = some (n, t)) (hn : n ≠ "") (ht : t ≠ 0) :
    (strStartsWith k "long_monitor_contention" = true →
      alGet (processTimingLine k (tp, mc) v).2 v.text =
          some (if strEndsWith k "_secs" = true then t * 1000 else t) ∧
        (processTimingLine k (tp, mc) v).1 = tp) ∧
    (strStartsWith k "long_monitor_contention" = false →
      alGet (processTimingLine k (tp, mc) v).1
          (dedupName tp
            (if strFind v.text asyncMarker > 0 then "(" ++ n ++ ")" else n)) =
          some (if strEndsWith k "_secs" = true then t * 1000 else t) ∧
        (processTimingLine k (tp, mc) v).2 = mc) := by
  constructor
  · intro hmc
    simp only [processTimingLine, hext, hn, ht, or_self, if_false, hmc, if_true]
    constructor
    · split_ifs <;> simp [alGet_alSet_self]
    · trivial
  · intro hmc
    simp only [processTimingLine, hext, hn, ht, or_self, if_false, hmc,
      Bool.false_eq_true]
    constructor
    · split_ifs <;> simp [alGet_alSet_self]
    · trivial

/-- C8 witness: the theorem applied to a monitor-contention group with an
unsuffixed key and a line whose marker is absent. -/
theorem C8_duration_line_transforms_witness :
    (strStartsWith "long_monitor_contention" "long_monitor_contention" = true →
      alGet (processTimingLine "long_monitor_contention" ([], [])
            ⟨"lock contention on x", some ("mc", 7)⟩).2 "lock contention on x" =
          some (if strEndsWith "long_monitor_contention" "_secs" = true
            then (7 : ℚ) * 1000 else 7) ∧
        (processTimingLine "long_monitor_contention" ([], [])
          ⟨"lock contention on x", some ("mc", 7)⟩).1 = []) ∧
    (strStartsWith "long_monitor_contention" "long_monitor_contention" = false →
      alGet (processTimingLine "long_monitor_contention" ([], [])
            ⟨"lock contention on x", some ("mc", 7)⟩).1
          (dedupName []
            (if strFind "lock contention on x" asyncMarker > 0
              then "(" ++ "mc" ++ ")" else "mc")) =
          some (if strEndsWith "long_monitor_contention" "_secs" = true
            then (7 : ℚ) * 1000 else 7) ∧
        (processTimingLine "long_monitor_contention" ([], [])
          ⟨"lock contention on x", some ("mc", 7)⟩).2 = []) :=
  C8_duration_line_transforms "long_monitor_contention" [] []
    ⟨"lock contention on x", some ("mc", 7)⟩ "mc" 7 rfl (by decide) (by decide)

/-- C8 counterexample: a line beginning with the `SystemServerTimingAsync`
marker (index `0`) carries the marker yet its name is *not* wrapped (`find >
0` fails), and for a monitor-contention group the side table is keyed by the
raw line, not by the extracted `(name, value)` pair. -/
theorem C8_counterexample :
    strFind "SystemServerTimingAsync mc 7" asyncMarker = 0 ∧
    alGet (processTimingLine "events" ([], [])
        ⟨"SystemServerTimingAsync mc 7", some ("mc", 7)⟩).1 "(mc)" = none ∧
    alGet (processTimingLine "events" ([], [])
        ⟨"SystemServerTimingAsync mc 7", some ("mc", 7)⟩).1 "mc" = some 7 ∧
    alGet (processTimingLine "long_monitor_contention" ([], [])
        ⟨"lock contention on x", some ("mc", 7)⟩).2 "mc" = none ∧
    alGet (processTimingLine "long_monitor_contention" ([], [])
        ⟨"lock contention on x", some ("mc", 7)⟩).2 "lock contention on x" =
      some 7 := by
  refine ⟨by decide, by decide, by decide, by decide, by decide⟩

/-- C10: a raw duration line whose extracted elapsed value is `0.0`, or whose
extracted name is empty, is silently omitted from both the main duration
table and the monitor-contention side table. -/
theorem C10_zero_or_empty_sample_dropped (k : String)
    (tp mc : List (String × ℚ)) (v : RawLine) (n : String) (t : ℚ)
    (hext : v.ext = some (n, t)) (h : n = "" ∨ t = 0) :
    processTimingLine k (tp, mc) v = (tp, mc) := by
  simp [processTimingLine, hext, h]

/-- C10 witness: a matched line with elapsed value `0` leaves both tables
unchanged. -/
theorem C10_zero_or_empty_sample_dropped_witness :
    processTimingLine "events" ([("boot", 3)], [])
        ⟨"took 0ms", some ("svc", 0)⟩ = ([("boot", 3)], []) :=
  C10_zero_or_empty_sample_dropped "events" [("boot", 3)] []
    ⟨"took 0ms", some ("svc", 0)⟩ "svc" 0 rfl (Or.inr rfl)

/-! ## TimelineAssembler data points and ThresholdMonitor -/

/-- One assembled timeline entry: the dict with keys `value`, `from_dmesg`
and `logcat_value` (the raw logcat string value is abstracted to its numeric
reading). -/
structure DataPoint where
  value : ℚ
  from_dmesg : Bool
  logcat_value : ℚ
deriving DecidableEq

def dpDefault : DataPoint := ⟨0, false, 0⟩

/-- The per-component body of the monitoring loop over
`components_to_monitor`: check the logcat duration table, then the kernel
duration table, then the assembled timeline (whose seconds value is scaled
by 1000 before comparison), in that order; the first breach yields the
bug-report capture request `(component, measured value)`. -/
def capture? (ltp ktp : List (String × ℚ)) (dps : List (String × DataPoint))
    (k : String) (v : ℚ) : Option (String × ℚ) :=
  if truthy (alGet ltp k) = true ∧ (alGet ltp k).getD 0 > v then
    some (k, (alGet ltp k).getD 0)
  else if truthy (alGet ktp k) = true ∧ (alGet ktp k).getD 0 > v then
    some (k, (alGet ktp k).getD 0)
  else if (alGet dps k).isSome = true ∧
      ((alGet dps k).getD dpDefault).value * 1000 > v then
    some (k, ((alGet dps k).getD dpDefault).value)
  else none

/-- The `for k, v in components_to_monitor.items():` loop: evaluate each
component in order and `break` after the first capture request. Returns the
list of capture requests raised during the run. -/
def monitorComponents (ltp ktp : List (String × ℚ))
    (dps : List (String × DataPoint)) : List (String × ℚ) → List (String × ℚ)
  | [] => []
  | p :: rest =>
    match capture? ltp ktp dps p.1 p.2 with
    | some c => [c]
    | none => monitorComponents ltp ktp dps rest

theorem monitorComponents_skip (ltp ktp : List (String × ℚ))
    (dps : List (String × DataPoint)) :
    ∀ (pre l : List (String × ℚ)),
      (∀ q ∈ pre, capture? ltp ktp dps q.1 q.2 = none) →
      monitorComponents ltp ktp dps (pre ++ l) =
        monitorComponents ltp ktp dps l := by
  intro pre
  induction pre with
  | nil => intro l _; rfl
  | cons q rest ih =>
    intro l hpre
    have hq : capture? ltp ktp dps q.1 q.2 = none := hpre q (by simp)
    have : monitorComponents ltp ktp dps ((q :: rest) ++ l) =
        monitorComponents ltp ktp dps (rest ++ l) := by
      simp [monitorComponents, hq]
    rw [this, ih l (fun q' hq' => hpre q' (by simp [hq']))]

/-- C7: the monitored components are evaluated in configured order, each one
against the logcat duration table, then the kernel duration table, then the
assembled timeline, in that fixed priority; when at least two components
breach their limits (here `p1`, preceded only by non-breaching components,
and a later `p2`), exactly one bug-report capture request is raised — the
one for the higher-priority component `p1` — and no later component
produces a request. -/
theorem C7_first_breach_single_capture (ltp ktp : List (String × ℚ))
    (dps : List (String × DataPoint)) (pre mid post : List (String × ℚ))
    (p1 p2 : String × ℚ) (c1 : String × ℚ)
    (hpre : ∀ q ∈ pre, capture? ltp ktp dps q.1 q.2 = none)
    (h1 : capture? ltp ktp dps p1.1 p1.2 = some c1)
    (hbreach2 : capture? ltp ktp dps p2.1 p2.2 ≠ none) :
    monitorComponents ltp ktp dps (pre ++ p1 :: mid ++ p2 :: post) = [c1] ∧
    (truthy (alGet ltp p1.1) = true ∧ (alGet ltp p1.1).getD 0 > p1.2 →
      c1 = (p1.1, (alGet ltp p1.1).getD 0)) := by
  constructor
  · rw [List.append_assoc,
      monitorComponents_skip ltp ktp dps pre ((p1 :: mid) ++ (p2 :: post)) hpre]
    simp [monitorComponents, h1]
  · intro hc
    have h1' := h1
    unfold capture? at h1'
    rw [if_pos hc] at h1'
    exact (Option.some.inj h1').symm

/-- C7 witness: components `[z ↦ 5, a ↦ 3, b ↦ 1]` with `a` breaching via the
logcat table (`10 > 3`) and `b` breaching via the kernel table (`2 > 1`):
exactly the capture for `a` is raised. -/
theorem C7_first_breach_single_capture_witness :
    monitorComponents [("a", 10)] [("b", 2)] []
        ([("z", 5)] ++ ("a", 3) :: [] ++ ("b", 1) :: []) = [("a", 10)] ∧
    (truthy (alGet [("a", (10 : ℚ))] "a") = true ∧
        (alGet [("a", (10 : ℚ))] "a").getD 0 > 3 →
      ("a", (10 : ℚ)) = ("a", (alGet [("a", (10 : ℚ))] "a").getD 0)) :=
  C7_first_breach_single_capture [("a", 10)] [("b", 2)] []
    [("z", 5)] [] [] ("a", 3) ("b", 1) ("a", 10)
    (by decide) (by decide) (by decide)

/-! ## TimelineAssembler (`iterate`: merge, correction loop, `data_points`) -/

/-- One step of the merge loop (`for k, v in logcat_event_time.items():`):
`events[k] = v`; when `k` is also in the kernel table, overwrite with the
kernel value and mark the key replaced, otherwise queue it for correction.
State: `(events, replaced_from_dmesg, events_to_correct)`. -/
def mergeStep (dmesg : List (String × ℚ))
    (st : List (String × ℚ) × List String × List String) (p : String × ℚ) :
    List (String × ℚ) × List String × List String :=
  let events := alSet st.1 p.1 p.2
  match alGet dmesg p.1 with
  | some w => (alSet events p.1 w, p.1 :: st.2.1, st.2.2)
  | none => (events, st.2.1, st.2.2 ++ [p.1])

def mergeEvents (logcat dmesg : List (String × ℚ)) :
    List (String × ℚ) × List String × List String :=
  logcat.foldl (mergeStep dmesg) ([], [], [])

/-- One step of the correction loop over `events_to_correct`, threading the
`(events, diffs, diff_prev)` state. -/
def corrStep (st : List (String × ℚ) × List (ℚ × ℚ) × (ℚ × ℚ)) (j : String) :
    List (String × ℚ) × List (ℚ × ℚ) × (ℚ × ℚ) :=
  let r := correctOne st.2.1 st.2.2 ((alGet st.1 j).getD 0)
  (alSet st.1 j r.1, r.2.1, r.2.2)

/-- The correction loop: `diff_prev` starts at `diffs[0]` and each queued
event is corrected in order. -/
def correctEvents (events : List (String × ℚ)) (toCorrect : List String)
    (diffs : List (ℚ × ℚ)) : List (String × ℚ) :=
  (toCorrect.foldl corrStep (events, diffs, diffs.headD (0, 0))).1

/-- Stable ascending insertion by value, embedding Python's stable
`sorted(events.items(), key=operator.itemgetter(1))`. -/
def insertByValue (p : String × ℚ) :
    List (String × ℚ) → List (String × ℚ)
  | [] => [p]
  | q :: rest =>
    if p.2 ≤ q.2 then p :: q :: rest else q :: insertByValue p rest

def sortByValue : List (String × ℚ) → List (String × ℚ)
  | [] => []
  | p :: rest => insertByValue p (sortByValue rest)

/-- Assemble `data_points`: the merged-and-corrected events sorted ascending
by value, each entry carrying `from_dmesg` provenance and the original
logcat value, then the synthetic `*...+Bootloader` composites when both of
their operands are truthy. -/
def dataPoints (events : List (String × ℚ)) (replaced : List String)
    (logcatOrig boottime : List (String × ℚ)) : List (String × DataPoint) :=
  let dps := (sortByValue events).map
    (fun p => (p.1,
      (⟨p.2, decide (p.1 ∈ replaced), (alGet logcatOrig p.1).getD 0⟩ : DataPoint)))
  let dps :=
    if truthy (alGet events "BootComplete") &&
        truthy (alGet boottime "bootloader") then
      alSet dps "*BootComplete+Bootloader"
        ⟨(alGet events "BootComplete").getD 0 +
          (alGet boottime "bootloader").getD 0, false, 0⟩
    else dps
  if truthy (alGet events "LauncherStart") &&
      truthy (alGet boottime "bootloader") then
    alSet dps "*LauncherStart+Bootloader"
      ⟨(alGet events "LauncherStart").getD 0 +
        (alGet boottime "bootloader").getD 0, false, 0⟩
  else dps

/-- The timeline-assembly slice of `iterate`: merge the user and kernel
tables (kernel value wins), correct the user-only events against the anchor
list, and emit the ordered `data_points`. -/
def assembleTimeline (logcat dmesg : List (String × ℚ)) (diffs : List (ℚ × ℚ))
    (logcatOrig boottime : List (String × ℚ)) : List (String × DataPoint) :=
  let m := mergeEvents logcat dmesg
  dataPoints (correctEvents m.1 m.2.2 diffs) m.2.1 logcatOrig boottime

/-! ## Lookup lemmas used for the timeline theorem -/

theorem alGet_mem {v : Type} (es : List (String × v)) (k : String) (x : v)
    (h : alGet es k = some x) : (k, x) ∈ es := by
  induction es with
  | nil => simp [alGet] at h
  | cons p rest ih =>
    obtain ⟨p1, p2⟩ := p
    by_cases hp : p1 = k
    · rw [alGet, if_pos hp] at h
      have hx : p2 = x := Option.some.inj h
      rw [← hp, ← hx]
      exact List.mem_cons_self (p1, p2) rest
    · rw [alGet, if_neg hp] at h
      exact List.mem_cons_of_mem (p1, p2) (ih h)

theorem alGet_eq_of_mem {v : Type} (es : List (String × v)) (k : String)
    (x : v) (hnd : (es.map Prod.fst).Nodup) (h : (k, x) ∈ es) :
    alGet es k = some x := by
  induction es with
  | nil => simp at h
  | cons p rest ih =>
    obtain ⟨p1, p2⟩ := p
    simp only [List.map_cons, List.nodup_cons] at hnd
    rcases List.mem_cons.mp h with heq | hmem
    · have h1 : k = p1 ∧ x = p2 := Prod.mk.injEq k x p1 p2 ▸ heq
      rw [alGet, if_pos h1.1.symm, h1.2]
    · have hp1 : p1 ≠ k := by
        intro hpk
        rw [hpk] at hnd
        exact hnd.1 (List.mem_map_of_mem Prod.fst hmem)
      rw [alGet, if_neg hp1]
      exact ih hnd.2 hmem

theorem mem_map_fst_alSet {v : Type} (es : List (String × v)) (k a : String)
    (x : v) :
    a ∈ (alSet es k x).map Prod.fst ↔ a ∈ es.map Prod.fst ∨ a = k := by
  induction es with
  | nil => simp [alSet]
  | cons p rest ih =>
    obtain ⟨p1, p2⟩ := p
    by_cases hp : p1 = k
    · subst hp
      simp [alSet]
      tauto
    · simp [alSet, hp, ih]
      tauto

theorem nodup_map_fst_alSet {v : Type} (es : List (String × v)) (k : String)
    (x : v) (hnd : (es.map Prod.fst).Nodup) :
    ((alSet es k x).map Prod.fst).Nodup := by
  induction es with
  | nil => simp [alSet]
  | cons p rest ih =>
    obtain ⟨p1, p2⟩ := p
    simp only [List.map_cons, List.nodup_cons] at hnd
    by_cases hp : p1 = k
    · simp only [alSet, if_pos hp, List.map_cons, List.nodup_cons]
      exact ⟨hnd.1, hnd.2⟩
    · simp only [alSet, if_neg hp, List.map_cons, List.nodup_cons]
      refine ⟨?_, ih hnd.2⟩
      intro hmem
      rcases (mem_map_fst_alSet rest k p1 x).mp hmem with h | h
      · exact hnd.1 h
      · exact hp h

theorem merge_foldl_notmem (dmesg : List (String × ℚ)) :
    ∀ (l : List (String × ℚ))
      (st : List (String × ℚ) × List String × List String) (k : String),
      k ∉ l.map Prod.fst →
      alGet (l.foldl (mergeStep dmesg) st).1 k = alGet st.1 k ∧
      (k ∈ (l.foldl (mergeStep dmesg) st).2.1 ↔ k ∈ st.2.1) ∧
      (k ∈ (l.foldl (mergeStep dmesg) st).2.2 ↔ k ∈ st.2.2) := by
  intro l
  induction l with
  | nil => intro st k _; exact ⟨rfl, Iff.rfl, Iff.rfl⟩
  | cons p rest ih =>
    intro st k hk
    simp only [List.map_cons, List.mem_cons, not_or] at hk
    obtain ⟨hk1, hk2⟩ := hk
    rw [List.foldl_cons]
    obtain ⟨g, r, tc⟩ := ih (mergeStep dmesg st p) k hk2
    have hstep :
        alGet (mergeStep dmesg st p).1 k = alGet st.1 k ∧
        (k ∈ (mergeStep dmesg st p).2.1 ↔ k ∈ st.2.1) ∧
        (k ∈ (mergeStep dmesg st p).2.2 ↔ k ∈ st.2.2) := by
      have hne : p.1 ≠ k := fun h => hk1 h.symm
      unfold mergeStep
      cases hd : alGet dmesg p.1 with
      | none =>
        refine ⟨alGet_alSet_ne st.1 p.1 k p.2 hne, Iff.rfl, ?_⟩
        simp [hk1]
      | some w =>
        refine ⟨?_, ?_, Iff.rfl⟩
        · rw [alGet_alSet_ne _ p.1 k w hne, alGet_alSet_ne st.1 p.1 k p.2 hne]
        · simp [hk1]
    exact ⟨g.trans hstep.1, r.trans hstep.2.1, tc.trans hstep.2.2⟩

theorem merge_foldl_hit (dmesg : List (String × ℚ)) (k : String) (K : ℚ)
    (hd : alGet dmesg k = some K) :
    ∀ (l : List (String × ℚ))
      (st : List (String × ℚ) × List String × List String) (u : ℚ),
      (l.map Prod.fst).Nodup → (k, u) ∈ l →
      alGet (l.foldl (mergeStep dmesg) st).1 k = some K ∧
      k ∈ (l.foldl (mergeStep dmesg) st).2.1 ∧
      (k ∈ (l.foldl (mergeStep dmesg) st).2.2 ↔ k ∈ st.2.2) := by
  intro l
  induction l with
  | nil => intro st u _ h; simp at h
  | cons p rest ih =>
    intro st u hnd hmem
    simp only [List.map_cons, List.nodup_cons] at hnd
    rw [List.foldl_cons]
    rcases List.mem_cons.mp hmem with heq | hmem'
    · have hp1 : p.1 = k := by rw [← heq]
      have hstep : (mergeStep dmesg st p) =
          (alSet (alSet st.1 p.1 p.2) p.1 K, p.1 :: st.2.1, st.2.2) := by
        unfold mergeStep
        rw [hp1, hd]
      rw [hstep]
      have hknotin : k ∉ rest.map Prod.fst := by
        rw [← hp1]; exact hnd.1
      obtain ⟨g, r, tc⟩ := merge_foldl_notmem dmesg rest
        (alSet (alSet st.1 p.1 p.2) p.1 K, p.1 :: st.2.1, st.2.2) k hknotin
      refine ⟨?_, ?_, ?_⟩
      · rw [g]
        show alGet (alSet (alSet st.1 p.1 p.2) p.1 K) k = some K
        rw [hp1]
        exact alGet_alSet_self _ k K
      · exact r.mpr (by rw [hp1]; exact List.mem_cons_self k st.2.1)
      · exact tc
    · have hp1 : p.1 ≠ k := by
        intro hpk
        rw [hpk] at hnd
        exact hnd.1 (List.mem_map_of_mem Prod.fst hmem')
      obtain ⟨g, r, tc⟩ := ih (mergeStep dmesg st p) u hnd.2 hmem'
      refine ⟨g, r, tc.trans ?_⟩
      have hk1 : ¬ k = p.1 := fun h => hp1 (Eq.symm h)
      unfold mergeStep
      cases hdp : alGet dmesg p.1 with
      | none => simp [hk1]
      | some w => exact Iff.rfl

theorem merge_foldl_nodup (dmesg : List (String × ℚ)) :
    ∀ (l : List (String × ℚ))
      (st : List (String × ℚ) × List String × List String),
      (st.1.map Prod.fst).Nodup →
      ((l.foldl (mergeStep dmesg) st).1.map Prod.fst).Nodup := by
  intro l
  induction l with
  | nil => intro st h; exact h
  | cons p rest ih =>
    intro st hst
    rw [List.foldl_cons]
    refine ih (mergeStep dmesg st p) ?_
    unfold mergeStep
    cases hdp : alGet dmesg p.1 with
    | none => exact nodup_map_fst_alSet st.1 p.1 p.2 hst
    | some w =>
      exact nodup_map_fst_alSet _ p.1 w (nodup_map_fst_alSet st.1 p.1 p.2 hst)

theorem correct_foldl_notmem :
    ∀ (toc : List String)
      (st : List (String × ℚ) × List (ℚ × ℚ) × (ℚ × ℚ)) (k : String),
      k ∉ toc →
      alGet (toc.foldl corrStep st).1 k = alGet st.1 k := by
  intro toc
  induction toc with
  | nil => intro st k _; rfl
  | cons j rest ih =>
    intro st k hk
    simp only [List.mem_cons, not_or] at hk
    rw [List.foldl_cons, ih (corrStep st j) k hk.2]
    unfold corrStep
    exact alGet_alSet_ne st.1 j k _ (fun h => hk.1 h.symm)

theorem correct_foldl_nodup :
    ∀ (toc : List String)
      (st : List (String × ℚ) × List (ℚ × ℚ) × (ℚ × ℚ)),
      (st.1.map Prod.fst).Nodup →
      ((toc.foldl corrStep st).1.map Prod.fst).Nodup := by
  intro toc
  induction toc with
  | nil => intro st h; exact h
  | cons j rest ih =>
    intro st hst
    rw [List.foldl_cons]
    exact ih (corrStep st j) (nodup_map_fst_alSet st.1 j _ hst)

theorem insertByValue_perm (p : String × ℚ) (l : List (String × ℚ)) :
    (insertByValue p l).Perm (p :: l) := by
  induction l with
  | nil => exact List.Perm.refl _
  | cons q rest ih =>
    by_cases h : p.2 ≤ q.2
    · rw [insertByValue, if_pos h]
    · rw [insertByValue, if_neg h]
      exact (ih.cons q).trans (List.Perm.swap p q rest)

theorem sortByValue_perm (l : List (String × ℚ)) :
    (sortByValue l).Perm l := by
  induction l with
  | nil => exact List.Perm.refl _
  | cons p rest ih =>
    rw [sortByValue]
    exact (insertByValue_perm p (sortByValue rest)).trans (ih.cons p)

theorem alGet_map_dp (replaced : List String) (logcatOrig : List (String × ℚ)) :
    ∀ (es : List (String × ℚ)) (k : String),
      alGet (es.map (fun p => (p.1,
          (⟨p.2, decide (p.1 ∈ replaced),
            (alGet logcatOrig p.1).getD 0⟩ : DataPoint)))) k =
        (alGet es k).map (fun x =>
          (⟨x, decide (k ∈ replaced),
            (alGet logcatOrig k).getD 0⟩ : DataPoint)) := by
  intro es
  induction es with
  | nil => intro k; rfl
  | cons p rest ih =>
    intro k
    obtain ⟨p1, p2⟩ := p
    by_cases hp : p1 = k
    · subst hp
      simp [alGet]
    · simp [alGet, hp, ih]

/-- C3: for every event name present in both the kernel and the user event
tables with kernel value `K`, the assembled timeline entry for that name has
value exactly `K` and kernel provenance (`from_dmesg = true`): the kernel
value wins on conflict and is not touched by the correction loop. (The two
synthetic `*...+Bootloader` composites are the only keys written outside the
merge, so the name is assumed distinct from them; configured event names
never start with `*`.) -/
theorem C3_kernel_wins (logcat dmesg logcatOrig boottime : List (String × ℚ))
    (diffs : List (ℚ × ℚ)) (k : String) (K u : ℚ)
    (hnd : (logcat.map Prod.fst).Nodup)
    (hl : alGet logcat k = some u)
    (hd : alGet dmesg k = some K)
    (h1 : k ≠ "*BootComplete+Bootloader")
    (h2 : k ≠ "*LauncherStart+Bootloader") :
    alGet (assembleTimeline logcat dmesg diffs logcatOrig boottime) k =
      some ⟨K, true, (alGet logcatOrig k).getD 0⟩ := by
  have hmem := alGet_mem logcat k u hl
  obtain ⟨g, r, tc⟩ :=
    merge_foldl_hit dmesg k K hd logcat ([], [], []) u hnd hmem
  have hknotc : k ∉ (mergeEvents logcat dmesg).2.2 := by
    intro hmem2
    simpa using tc.mp hmem2
  have hget2 :
      alGet (correctEvents (mergeEvents logcat dmesg).1
        (mergeEvents logcat dmesg).2.2 diffs) k = some K := by
    unfold correctEvents
    rw [correct_foldl_notmem (mergeEvents logcat dmesg).2.2
      ((mergeEvents logcat dmesg).1, diffs, diffs.headD (0, 0)) k hknotc]
    exact g
  have hnd2 :
      ((correctEvents (mergeEvents logcat dmesg).1
        (mergeEvents logcat dmesg).2.2 diffs).map Prod.fst).Nodup := by
    unfold correctEvents
    exact correct_foldl_nodup (mergeEvents logcat dmesg).2.2 _
      (merge_foldl_nodup dmesg logcat ([], [], []) (by simp))
  have hmem3 : (k, K) ∈ sortByValue (correctEvents (mergeEvents logcat dmesg).1
      (mergeEvents logcat dmesg).2.2 diffs) :=
    (sortByValue_perm _).mem_iff.mpr (alGet_mem _ k K hget2)
  have hnd3 : ((sortByValue (correctEvents (mergeEvents logcat dmesg).1
      (mergeEvents logcat dmesg).2.2 diffs)).map Prod.fst).Nodup :=
    (((sortByValue_perm _).map Prod.fst).nodup_iff).mpr hnd2
  have hget3 : alGet (sortByValue (correctEvents (mergeEvents logcat dmesg).1
      (mergeEvents logcat dmesg).2.2 diffs)) k = some K :=
    alGet_eq_of_mem _ k K hnd3 hmem3
  have hdec : decide (k ∈ (mergeEvents logcat dmesg).2.1) = true :=
    decide_eq_true r
  show alGet (dataPoints (correctEvents (mergeEvents logcat dmesg).1
      (mergeEvents logcat dmesg).2.2 diffs) (mergeEvents logcat dmesg).2.1
      logcatOrig boottime) k = some ⟨K, true, (alGet logcatOrig k).getD 0⟩
  unfold dataPoints
  have hmap : alGet ((sortByValue (correctEvents (mergeEvents logcat dmesg).1
      (mergeEvents logcat dmesg).2.2 diffs)).map (fun p => (p.1,
        (⟨p.2, decide (p.1 ∈ (mergeEvents logcat dmesg).2.1),
          (alGet logcatOrig p.1).getD 0⟩ : DataPoint)))) k =
      some ⟨K, true, (alGet logcatOrig k).getD 0⟩ := by
    rw [alGet_map_dp (mergeEvents logcat dmesg).2.1 logcatOrig _ k, hget3]
    simp [hdec]
  split_ifs with hc1 hc2 hc2
  · rw [alGet_alSet_ne _ _ _ _ (fun h => h2 h.symm),
      alGet_alSet_ne _ _ _ _ (fun h => h1 h.symm)]
    exact hmap
  · rw [alGet_alSet_ne _ _ _ _ (fun h => h1 h.symm)]
    exact hmap
  · rw [alGet_alSet_ne _ _ _ _ (fun h => h2 h.symm)]
    exact hmap
  · exact hmap

/-- C3 witness: `BootComplete` present in both tables (user `30`, kernel
`28`): the assembled entry carries the kernel value `28` with
`from_dmesg = true`. -/
theorem C3_kernel_wins_witness :
    alGet (assembleTimeline [("BootComplete", 30)] [("BootComplete", 28)]
        [((5 : ℚ), 5)] [("BootComplete", 30)] []) "BootComplete" =
      some ⟨28, true,
        (alGet [("BootComplete", (30 : ℚ))] "BootComplete").getD 0⟩ :=
  C3_kernel_wins [("BootComplete", 30)] [("BootComplete", 28)]
    [("BootComplete", 30)] [] [(5, 5)] "BootComplete" 28 30
    (by simp) rfl rfl (by decide) (by decide)

end BootAnalyze
